import Mathlib

/-!
Verification development for the competitor-intelligence-radar repository.

The definitions below are a shallow embedding of the analysis pipeline:
the rule-based classifier in `src/lib/ai.ts` (capability, priority,
competitor, confidence and verification detection), the clustering job,
the alerts job and the pipeline runner in `src/lib/ingestion.ts`.
JavaScript strings are modelled by `String`, case-insensitive regular
expressions by a small derivative-based matcher applied to lowercased
text, JS numbers (which in the confidence arithmetic only ever hold
halves) exactly by integers in half-points, and the Prisma-backed store
by explicit record lists threaded through the jobs.
-/

/-! ## String utilities: JS `String.prototype.includes` -/

/-- Boolean prefix test on character lists. -/
def isPrefixB : List Char → List Char → Bool
  | [], _ => true
  | _ :: _, [] => false
  | a :: as, b :: bs => a == b && isPrefixB as bs

/-- Boolean substring test on character lists: does `pat` occur inside `s`? -/
def containsB (pat : List Char) : List Char → Bool
  | [] => isPrefixB pat []
  | c :: t => isPrefixB pat (c :: t) || containsB pat t

/-- Model of JS `s.includes(pat)`. -/
def strContains (s pat : String) : Bool :=
  containsB pat.toList s.toList

/-- Model of JS `toLowerCase` (its ASCII action, which is all the
analysed code distinguishes), written to recurse structurally so proofs
can evaluate it. -/
def strLower (s : String) : String :=
  String.mk (s.toList.map Char.toLower)

/-! ## A small regular-expression engine (Brzozowski derivatives)

The classifier uses JS regexes with the `i` flag.  We model a regex as a
syntax tree over character classes; `i` is modelled by lowercasing the
subject text and writing all pattern literals in lowercase (the patterns
in the source are ASCII).  `RegExp.test` searches for a match anywhere in
the text, which we encode by wrapping the pattern between two `.*`-like
any-character loops and requiring a full match.
-/

/-- Regular expressions over character classes. -/
inductive RE where
  | emp : RE
  | eps : RE
  | cls : (Char → Bool) → RE
  | seq : RE → RE → RE
  | alt : RE → RE → RE
  | star : RE → RE

/-- Smart sequencing constructor (keeps derivative terms small). -/
def mkSeq : RE → RE → RE
  | .emp, _ => .emp
  | .eps, b => b
  | a, b =>
    match b with
    | .emp => .emp
    | .eps => a
    | _ => .seq a b

/-- Smart alternation constructor (keeps derivative terms small). -/
def mkAlt : RE → RE → RE
  | .emp, b => b
  | a, b =>
    match b with
    | .emp => a
    | _ => .alt a b

/-- Nullability: does the regex accept the empty string? -/
def nullable : RE → Bool
  | .emp => false
  | .eps => true
  | .cls _ => false
  | .seq a b => nullable a && nullable b
  | .alt a b => nullable a || nullable b
  | .star _ => true

/-- Brzozowski derivative with respect to one character. -/
def rederiv : RE → Char → RE
  | .emp, _ => .emp
  | .eps, _ => .emp
  | .cls p, c => if p c then .eps else .emp
  | .seq a b, c =>
    if nullable a then mkAlt (mkSeq (rederiv a c) b) (rederiv b c)
    else mkSeq (rederiv a c) b
  | .alt a b, c => mkAlt (rederiv a c) (rederiv b c)
  | .star a, c => mkSeq (rederiv a c) (.star a)

/-- Full-string matching by iterated derivatives. -/
def matchFull (r : RE) (s : List Char) : Bool :=
  nullable (s.foldl rederiv r)

/-- Character class accepting any character (used for the search wrapper). -/
def anyTok : RE := .cls (fun _ => true)

/-- Model of JS `pattern.test(text)` for a case-insensitive pattern:
search for a match anywhere in the lowercased text. -/
def reTest (r : RE) (text : String) : Bool :=
  matchFull (.seq (.star anyTok) (.seq r (.star anyTok))) (strLower text).toList

/-- Literal string pattern. -/
def lit (s : String) : RE :=
  s.toList.foldr (fun c r => RE.seq (.cls (fun d => d == c)) r) .eps

/-- Model of the JS whitespace class for the sources in this repository
(the patterns only ever meet ASCII whitespace). -/
def isJsSpace (c : Char) : Bool :=
  c == ' ' || c == '\t' || c == '\n' || c == '\r' || c == '\x0b' || c == '\x0c'

/-- Pattern piece for a regex fragment of shape X followed by zero or more
whitespace characters followed by Y. -/
def wsSeq (a b : RE) : RE := .seq a (.seq (.star (.cls isJsSpace)) b)

/-- Pattern piece for a dot in a JS regex without the `s` flag: any
character except a line terminator. -/
def dotAny : RE := .star (.cls (fun c => !(c == '\n' || c == '\r')))

/-- Pattern piece for a regex fragment of shape X, then any characters,
then Y (as in X followed by dot star followed by Y). -/
def gapSeq (a b : RE) : RE := .seq a (.seq dotAny b)

/-- Optional piece of a regex (question mark). -/
def ropt (r : RE) : RE := .alt r .eps

/-- Digit class of a JS regex. -/
def digitC : RE := .cls Char.isDigit

/-- Three-way alternation helper. -/
def alt3 (a b c : RE) : RE := .alt a (.alt b c)

/-- Four-way alternation helper. -/
def alt4 (a b c d : RE) : RE := .alt a (alt3 b c d)

/-! ## Enumerations of the Prisma data model used by the classifier -/

/-- Trust tier of a source (Prisma enum `TrustTier`). -/
inductive TrustTier where
  | HIGH | MEDIUM | LOW
deriving DecidableEq

/-- Story priority (Prisma enum `Priority`). -/
inductive Priority where
  | P0 | P1 | P2
deriving DecidableEq

/-- Verification status (Prisma enum `VerificationStatus`). -/
inductive VerificationStatus where
  | VERIFIED | CLAIM_UNVERIFIED
deriving DecidableEq

/-- AI capability tags (Prisma enum `AICapability`), in the declaration
order of `AI_CAPABILITY_PATTERNS` in `src/lib/ai.ts`, which is the order
`Object.entries` iterates them in. -/
inductive AICapability where
  | AI_VOICE_AGENT
  | AI_CHAT_AGENT
  | AI_LEAD_RESPONSE
  | AI_SCHEDULING_BOOKING
  | AI_DISPATCH_ROUTING
  | AI_MARKETING_AUTOMATION
  | AI_REPUTATION_REVIEWS
  | AI_ANALYTICS_INSIGHTS
  | AI_PAYMENTS_COLLECTIONS
  | AI_WORKFLOW_AUTOMATION
deriving DecidableEq

/-- Keys of `AI_CAPABILITY_PATTERNS` in `Object.entries` order. -/
def allCapabilities : List AICapability :=
  [.AI_VOICE_AGENT, .AI_CHAT_AGENT, .AI_LEAD_RESPONSE, .AI_SCHEDULING_BOOKING,
   .AI_DISPATCH_ROUTING, .AI_MARKETING_AUTOMATION, .AI_REPUTATION_REVIEWS,
   .AI_ANALYTICS_INSIGHTS, .AI_PAYMENTS_COLLECTIONS, .AI_WORKFLOW_AUTOMATION]

/-! ## Pattern tables from `src/lib/ai.ts` -/

/-- Embedding of `AI_CAPABILITY_PATTERNS` from `src/lib/ai.ts`
(each JS regex literal translated pattern for pattern). -/
def AI_CAPABILITY_PATTERNS : AICapability → List RE
  | .AI_VOICE_AGENT =>
    [ wsSeq (lit "voice") (alt4 (lit "ai") (lit "agent") (lit "assistant") (lit "bot")),
      wsSeq (lit "ai") (lit "voice"),
      wsSeq (lit "conversational") (gapSeq (lit "ai") (lit "voice")),
      wsSeq (lit "phone") (alt3 (lit "ai") (lit "bot") (lit "agent")),
      wsSeq (lit "virtual") (lit "receptionist"),
      wsSeq (lit "ai") (lit "calling"),
      wsSeq (lit "voice") (lit "automation") ]
  | .AI_CHAT_AGENT =>
    [ wsSeq (lit "chat") (alt3 (lit "ai") (lit "bot") (lit "agent")),
      wsSeq (lit "ai") (lit "chat"),
      wsSeq (lit "conversational") (lit "ai"),
      wsSeq (lit "live") (gapSeq (lit "chat") (lit "ai")),
      wsSeq (lit "messaging") (lit "ai"),
      wsSeq (lit "ai") (lit "messaging") ]
  | .AI_LEAD_RESPONSE =>
    [ gapSeq (wsSeq (lit "lead") (lit "response")) (lit "ai"),
      gapSeq (lit "ai") (wsSeq (lit "lead") (alt3 (lit "response") (lit "follow") (lit "nurtur"))),
      wsSeq (lit "instant") (lit "lead"),
      wsSeq (lit "automated") (lit "lead"),
      wsSeq (lit "lead") (lit "engagement") ]
  | .AI_SCHEDULING_BOOKING =>
    [ wsSeq (lit "ai") (lit "schedul"),
      gapSeq (lit "schedul") (lit "ai"),
      wsSeq (lit "ai") (lit "book"),
      gapSeq (lit "book") (lit "ai"),
      wsSeq (lit "automated") (lit "schedul"),
      wsSeq (lit "smart") (lit "schedul"),
      wsSeq (lit "intelligent") (lit "schedul") ]
  | .AI_DISPATCH_ROUTING =>
    [ wsSeq (lit "ai") (lit "dispatch"),
      gapSeq (lit "dispatch") (lit "ai"),
      wsSeq (lit "intelligent") (lit "routing"),
      wsSeq (lit "ai") (lit "rout"),
      wsSeq (lit "smart") (lit "dispatch"),
      wsSeq (lit "automated") (lit "dispatch") ]
  | .AI_MARKETING_AUTOMATION =>
    [ wsSeq (lit "ai") (lit "market"),
      gapSeq (lit "market") (lit "ai"),
      wsSeq (lit "ai") (lit "campaign"),
      wsSeq (lit "automated") (lit "market"),
      wsSeq (lit "intelligent") (lit "market"),
      wsSeq (lit "ai") (lit "email"),
      wsSeq (lit "ai") (lit "sms") ]
  | .AI_REPUTATION_REVIEWS =>
    [ wsSeq (lit "ai") (lit "review"),
      gapSeq (lit "review") (lit "ai"),
      gapSeq (lit "reputation") (lit "ai"),
      wsSeq (lit "ai") (lit "reputation"),
      wsSeq (lit "sentiment") (lit "analysis"),
      gapSeq (wsSeq (lit "review") (lit "management")) (lit "ai") ]
  | .AI_ANALYTICS_INSIGHTS =>
    [ wsSeq (lit "ai") (lit "analytic"),
      gapSeq (lit "analytic") (lit "ai"),
      wsSeq (lit "ai") (lit "insight"),
      wsSeq (lit "predictive") (lit "analytic"),
      wsSeq (lit "ai") (lit "reporting"),
      wsSeq (lit "intelligent") (lit "analytic"),
      wsSeq (lit "data") (lit "ai") ]
  | .AI_PAYMENTS_COLLECTIONS =>
    [ wsSeq (lit "ai") (lit "payment"),
      gapSeq (lit "payment") (lit "ai"),
      wsSeq (lit "ai") (lit "collection"),
      gapSeq (lit "collection") (lit "ai"),
      wsSeq (lit "automated") (lit "billing"),
      wsSeq (lit "smart") (lit "payment") ]
  | .AI_WORKFLOW_AUTOMATION =>
    [ wsSeq (lit "ai") (lit "workflow"),
      gapSeq (lit "workflow") (lit "ai"),
      gapSeq (wsSeq (lit "process") (lit "automation")) (lit "ai"),
      wsSeq (lit "ai") (lit "automation"),
      wsSeq (lit "intelligent") (lit "workflow"),
      wsSeq (lit "ai") (lit "process") ]

/-- Embedding of `P0_PATTERNS` from `src/lib/ai.ts`. -/
def P0_PATTERNS : List RE :=
  [ lit "launch",
    lit "announc",
    lit "acqui",
    lit "merger",
    wsSeq (lit "pricing") (alt3 (lit "change") (lit "update") (lit "new")),
    wsSeq (lit "major") (alt3 (lit "update") (lit "release") (lit "feature")),
    lit "revolutionary",
    wsSeq (lit "game") (lit "chang"),
    wsSeq (lit "industry") (lit "first"),
    .seq (lit "raise") (.seq (ropt (lit "s")) (.seq (.star (.cls isJsSpace))
      (.seq (ropt (lit "$")) (.seq digitC (.seq (.star digitC)
        (.seq (.star (.cls isJsSpace))
          (alt4 (lit "million") (lit "m") (lit "billion") (lit "b")))))))),
    wsSeq (lit "funding") (lit "round"),
    wsSeq (lit "series") (.cls (fun c => 'a' ≤ c && c ≤ 'z')) ]

/-- Embedding of `P1_PATTERNS` from `src/lib/ai.ts`. -/
def P1_PATTERNS : List RE :=
  [ wsSeq (lit "new") (lit "feature"),
    lit "improvement",
    lit "enhanc",
    lit "updat",
    lit "integrat",
    lit "partner",
    lit "expand",
    gapSeq (lit "add") (lit "capabilit"),
    lit "beta",
    wsSeq (lit "early") (lit "access") ]

/-! ## Classifier functions from `src/lib/ai.ts` -/

/-- Word character class of JS regexes (backslash-w). -/
def isWordChar (c : Char) : Bool :=
  ('a' ≤ c && c ≤ 'z') || ('A' ≤ c && c ≤ 'Z') || ('0' ≤ c && c ≤ '9') || c == '_'

/-- Scan for a word-boundary-delimited occurrence of "ai" in a lowercased
character list; the Bool argument records whether the previous character
was a word character. -/
def hasWordAi : Bool → List Char → Bool
  | _, [] => false
  | prevW, c :: rest =>
    (c == 'a' && !prevW &&
      (match rest with
       | 'i' :: rest2 =>
         (match rest2 with
          | [] => true
          | d :: _ => !isWordChar d)
       | _ => false))
    || hasWordAi (isWordChar c) rest

/-- Model of the JS test of the standalone-ai regex (word-boundary "ai",
case-insensitive) against a text. -/
def containsWordAi (text : String) : Bool :=
  hasWordAi false (strLower text).toList

/-- Does any pattern of the given capability match the text?  Mirrors the
inner loop (with break) of `detectAICapabilities`. -/
def capabilityMatches (text : String) (cap : AICapability) : Bool :=
  (AI_CAPABILITY_PATTERNS cap).any (fun p => reTest p text)

/-- Embedding of `detectAICapabilities` from `src/lib/ai.ts`: collect, in
`Object.entries` order, every capability one of whose patterns matches;
if none matched and the text contains the standalone token "ai", fall
back to the generic workflow-automation tag. -/
def detectAICapabilities (text : String) : List AICapability :=
  let capabilities := allCapabilities.filter (capabilityMatches text)
  if capabilities.isEmpty && containsWordAi text then [.AI_WORKFLOW_AUTOMATION]
  else capabilities

/-- Embedding of `detectPriority` from `src/lib/ai.ts`. -/
def detectPriority (text : String) (aiCapabilities : List AICapability) : Priority :=
  if P0_PATTERNS.any (fun p => reTest p text) then .P0
  else if P1_PATTERNS.any (fun p => reTest p text) then .P1
  else if aiCapabilities.contains .AI_VOICE_AGENT then .P1
  else .P2

/-- Competitor configuration entry (from `config/competitors.yaml`; only
the fields the analysed code reads). -/
structure CompetitorConfig where
  name : String
  keywords : List String
deriving DecidableEq

/-- Does a competitor match a lowercased text, by name or by any keyword
(case-insensitive substring)?  This is the loop body shared by
`detectCompetitor` in `src/lib/ai.ts` and the grouping loop of
`dedupeAndClusterJob` in `src/lib/ingestion.ts`. -/
def compMatchesLower (textLower : String) (c : CompetitorConfig) : Bool :=
  strContains textLower (strLower c.name) ||
    c.keywords.any (fun k => strContains textLower (strLower k))

/-- Inner loop of `detectCompetitor`: first competitor whose name or any
keyword occurs in the lowercased text. -/
def detectCompetitorLoop (textLower : String) : List CompetitorConfig → Option CompetitorConfig
  | [] => none
  | c :: rest =>
    if strContains textLower (strLower c.name) then some c
    else if c.keywords.any (fun k => strContains textLower (strLower k)) then some c
    else detectCompetitorLoop textLower rest

/-- Embedding of `detectCompetitor` from `src/lib/ai.ts`. -/
def detectCompetitor (text : String) (competitors : List CompetitorConfig) :
    Option CompetitorConfig :=
  detectCompetitorLoop (strLower text) competitors

/-- Source fields carried by a raw item into the analyser. -/
structure SourceRef where
  trustTier : TrustTier
  name : String
deriving DecidableEq

/-- Raw item joined with its source, as consumed by the analyser
(`RawItemWithSource` in `src/lib/ai.ts`). -/
structure RawItemWithSource where
  id : Nat
  url : String
  title : Option String
  rawText : Option String
  source : SourceRef
deriving DecidableEq

/-- JS `Math.round` applied to a number expressed in half-points (the
argument is twice the JS value, which is exact because the confidence
arithmetic only ever adds or subtracts halves): `Math.round x` rounds
half toward positive infinity, i.e. equals `floor (x + 1/2)`, and on
`x = h/2` that is `(h + 1)` floor-divided by 2. -/
def jsRoundHalf (h : Int) : Int := (h + 1).fdiv 2

/-- Embedding of `calculateConfidence` from `src/lib/ai.ts`.  The JS
float `score` only ever holds halves, so it is modelled exactly by the
integer `scoreH` = twice the JS value (base 3.0 becomes 6, a 0.5 bonus
becomes 1, a 1.0 bonus becomes 2). -/
def calculateConfidence (items : List RawItemWithSource)
    (verificationStatus : VerificationStatus) : Int :=
  let scoreH : Int := 6
  let highTrustCount := (items.filter (fun i => i.source.trustTier == .HIGH)).length
  let mediumTrustCount := (items.filter (fun i => i.source.trustTier == .MEDIUM)).length
  let scoreH := if highTrustCount ≥ 2 then scoreH + 2 else scoreH
  let scoreH := if highTrustCount ≥ 1 then scoreH + 1 else scoreH
  let scoreH := if mediumTrustCount ≥ 2 then scoreH + 1 else scoreH
  let scoreH := if verificationStatus == .VERIFIED then scoreH + 2 else scoreH
  let scoreH := if verificationStatus == .CLAIM_UNVERIFIED then scoreH - 1 else scoreH
  let scoreH := if items.length ≥ 3 then scoreH + 1 else scoreH
  min 5 (max 1 (jsRoundHalf scoreH))

/-- Confidence formula as worded by the specification (for comparison
with the embedded `calculateConfidence`), in the same exact half-point
scale: base 3.0, plus 1.0 for two HIGH-trust items, plus 0.5 for one
HIGH-trust item, plus 0.5 for two MEDIUM-trust items, plus 1.0 when
VERIFIED, minus 0.5 when CLAIM_UNVERIFIED, plus 0.5 for three or more
items, rounded to the nearest integer (halves up) and clamped to [1,5]. -/
def specConfidence (items : List RawItemWithSource)
    (status : VerificationStatus) : Int :=
  let high := (items.filter (fun i => i.source.trustTier == .HIGH)).length
  let med := (items.filter (fun i => i.source.trustTier == .MEDIUM)).length
  let scoreH : Int := 6 + (if 2 ≤ high then 2 else 0) + (if 1 ≤ high then 1 else 0)
    + (if 2 ≤ med then 1 else 0) + (if status = .VERIFIED then 2 else 0)
    - (if status = .CLAIM_UNVERIFIED then 1 else 0)
    + (if 3 ≤ items.length then 1 else 0)
  min 5 (max 1 (jsRoundHalf scoreH))

/-- Embedding of `determineVerificationStatus` from `src/lib/ai.ts`.
The JS `new Set(items.map(name)).size` is the number of distinct source
names, modelled with `List.dedup`. -/
def determineVerificationStatus (items : List RawItemWithSource)
    (hasAIClaims : Bool) : VerificationStatus :=
  if !hasAIClaims then .VERIFIED
  else
    let hasOfficialSource := items.any (fun i => i.source.trustTier == .HIGH)
    let uniqueSources := ((items.map (fun i => i.source.name)).dedup).length
    if hasOfficialSource || uniqueSources ≥ 2 then .VERIFIED
    else .CLAIM_UNVERIFIED

/-! ## Clustering job from `src/lib/ingestion.ts`

The Prisma store is modelled by explicit record lists; timestamps are
milliseconds since the Unix epoch (`Int`, as produced by `Date.now()`),
and `new Date().toISOString().split("T")[0]` is modelled by a standard
civil-from-days conversion in UTC.
-/

/-- Raw item record as read by the clustering job (only the fields that
job touches). -/
structure RawItem where
  id : Nat
  title : Option String
  rawText : Option String
  processed : Bool
deriving DecidableEq

/-- Story cluster record. -/
structure StoryCluster where
  id : Nat
  canonicalTitle : String
  createdAt : Int
  updatedAt : Int
deriving DecidableEq

/-- Store state threaded through the clustering job.  A `StoryItemLink`
is a `(clusterId, rawItemId)` pair; `nextClusterId` models id generation
for created clusters. -/
structure ClusterDB where
  rawItems : List RawItem
  clusters : List StoryCluster
  links : List (Nat × Nat)
  nextClusterId : Nat
deriving DecidableEq

/-- Selection condition of the initial `findMany` of the job:
`processed: false, rawText: { not: null }`. -/
def itemEligible (it : RawItem) : Bool :=
  !it.processed && it.rawText.isSome

/-- Two-digit padding for date components. -/
def pad2 (n : Nat) : String :=
  if n < 10 then "0" ++ toString n else toString n

/-- Civil UTC date (year, month, day) from days since the Unix epoch,
with the standard era-based calendar algorithm JS dates follow. -/
def civilFromDays (days : Int) : Int × Nat × Nat :=
  let z := days + 719468
  let era := z.fdiv 146097
  let doe := (z - era * 146097).toNat
  let yoe := (doe - doe / 1460 + doe / 36524 - doe / 146096) / 365
  let y : Int := (yoe : Int) + era * 400
  let doy := doe - (365 * yoe + yoe / 4 - yoe / 100)
  let mp := (5 * doy + 2) / 153
  let d := doy - (153 * mp + 2) / 5 + 1
  let m := if mp < 10 then mp + 3 else mp - 9
  (if m ≤ 2 then y + 1 else y, m, d)

/-- Model of `new Date(ms).toISOString().split("T")[0]`. -/
def isoDateOfMs (ms : Int) : String :=
  let days := ms.fdiv 86400000
  let c := civilFromDays days
  toString c.1 ++ "-" ++ pad2 c.2.1 ++ "-" ++ pad2 c.2.2

/-- Competitor key of one raw item, from the grouping loop of
`dedupeAndClusterJob`: lowercase title-plus-text, first configured
competitor whose name or keyword occurs as a substring, else the
sentinel "unknown". -/
def competitorKeyOf (competitors : List CompetitorConfig) (it : RawItem) : String :=
  let text := strLower ((it.title.getD "") ++ " " ++ (it.rawText.getD ""))
  match competitors.find? (compMatchesLower text) with
  | some comp => comp.name
  | none => "unknown"

/-- Append an item to the bucket of its key, preserving first-seen key
order (JS `Map` insertion-order semantics). -/
def addToGroups (key : String) (it : RawItem) :
    List (String × List RawItem) → List (String × List RawItem)
  | [] => [(key, [it])]
  | (k, its) :: rest =>
    if k == key then (k, its ++ [it]) :: rest
    else (k, its) :: addToGroups key it rest

/-- Grouping of the fetched batch by competitor key, in batch order. -/
def groupItems (competitors : List CompetitorConfig) (items : List RawItem) :
    List (String × List RawItem) :=
  items.foldl (fun gs it => addToGroups (competitorKeyOf competitors it) it gs) []

/-- Lookup of a reusable cluster: first `StoryCluster` whose canonical
title contains the competitor key and whose creation time is within the
last 24 hours of `now`. -/
def findExistingCluster (now : Int) (key : String) (db : ClusterDB) :
    Option StoryCluster :=
  db.clusters.find?
    (fun c => strContains c.canonicalTitle key && decide (now - 86400000 ≤ c.createdAt))

/-- Update function bumping the `updatedAt` of the cluster with the
given id (the `storyCluster.update` of the reuse branch). -/
def bumpUpdatedAt (cid : Nat) (now : Int) (cl : StoryCluster) : StoryCluster :=
  if cl.id == cid then { cl with updatedAt := now } else cl

/-- Mark every raw item record with the given id as processed. -/
def markProcessed (id0 : Nat) (items : List RawItem) : List RawItem :=
  items.map (fun r => if r.id == id0 then { r with processed := true } else r)

/-- Body of the link loop of `dedupeAndClusterJob` for one item: create
the `(clusterId, rawItemId)` link unless an identical one exists, count
the creation, then mark the item processed. -/
def linkStep (clusterId : Nat) (st : ClusterDB × Nat) (it : RawItem) : ClusterDB × Nat :=
  let db := st.1
  let hasLink := db.links.any (fun l => l.1 == clusterId && l.2 == it.id)
  let db1 := if hasLink then db else { db with links := db.links ++ [(clusterId, it.id)] }
  let count := if hasLink then st.2 else st.2 + 1
  ({ db1 with rawItems := markProcessed it.id db1.rawItems }, count)

/-- Link loop of `dedupeAndClusterJob` over the items of one group. -/
def linkItems (clusterId : Nat) (items : List RawItem) (db : ClusterDB)
    (itemsLinked : Nat) : ClusterDB × Nat :=
  items.foldl (linkStep clusterId) (db, itemsLinked)

/-- Model of the JS expression `t || fallback` for a nullable string
`t`: both null and the empty string are falsy in JS, so each selects the
fallback. -/
def jsStrOrElse (t : Option String) (fallback : String) : String :=
  match t with
  | none => fallback
  | some s => if s = "" then fallback else s

/-- Body of the per-group loop of `dedupeAndClusterJob`: resolve a target
cluster (reuse a recent one, bumping `updatedAt`, or create a new one
whose canonical title is the first item title unless that title is null
or empty, in which case the dated fallback), then link every item of the
group.  The accumulator carries the store, `clustersCreated` and
`itemsLinked`. -/
def processGroup (now : Int) (acc : ClusterDB × Nat × Nat) (g : String × List RawItem) :
    ClusterDB × Nat × Nat :=
  let db := acc.1
  match g.2 with
  | [] => acc
  | first :: rest =>
    let canonicalTitle := jsStrOrElse first.title (g.1 ++ " Updates - " ++ isoDateOfMs now)
    match findExistingCluster now g.1 db with
    | some c =>
      let db1 := { db with clusters := db.clusters.map (bumpUpdatedAt c.id now) }
      let r := linkItems c.id (first :: rest) db1 acc.2.2
      (r.1, acc.2.1, r.2)
    | none =>
      let cid := db.nextClusterId
      let db1 := { db with
        clusters := db.clusters ++ [⟨cid, canonicalTitle, now, now⟩],
        nextClusterId := cid + 1 }
      let r := linkItems cid (first :: rest) db1 acc.2.2
      (r.1, acc.2.1 + 1, r.2)

/-- Embedding of `dedupeAndClusterJob` from `src/lib/ingestion.ts`:
fetch at most 100 unprocessed items with text, group them by competitor
key, resolve or create a cluster per group, link and mark processed.
Returns `(clustersCreated, itemsLinked)` and the updated store. -/
def dedupeAndClusterJob (competitors : List CompetitorConfig) (now : Int)
    (db : ClusterDB) : (Nat × Nat) × ClusterDB :=
  let unprocessedItems := (db.rawItems.filter itemEligible).take 100
  let groups := groupItems competitors unprocessedItems
  let r := groups.foldl (processGroup now) (db, 0, 0)
  ((r.2.1, r.2.2), r.1)

/-! ## Alerts job from `src/lib/ingestion.ts` -/

/-- Story summary record, restricted to the fields the alerts job reads. -/
structure StorySummaryRec where
  id : Nat
  priority : Priority
  verticalId : Option Nat
  competitorId : Option Nat
  aiCapabilities : List AICapability
  createdAt : Int
deriving DecidableEq

/-- User alert rule with its filter lists (join rows flattened to the
referenced ids, which is all the matching logic reads). -/
structure UserAlert where
  userId : Nat
  minPriority : Priority
  verticals : List Nat
  competitors : List Nat
  aiCapabilities : List AICapability
  isActive : Bool
deriving DecidableEq

/-- Notification record (the fields the duplicate check reads). -/
structure NotificationRec where
  userId : Nat
  storyId : Nat
deriving DecidableEq

/-- Store state for the alerts job. -/
structure AlertDB where
  summaries : List StorySummaryRec
  alerts : List UserAlert
  notifications : List NotificationRec
deriving DecidableEq

/-- Matching condition of `alertsJob` for one alert rule against one
summary: the four conjuncts computed in the loop body. -/
def alertMatches (alert : UserAlert) (summary : StorySummaryRec) : Bool :=
  let matchesVertical :=
    alert.verticals.isEmpty || alert.verticals.any (fun v => some v == summary.verticalId)
  let matchesCompetitor :=
    alert.competitors.isEmpty ||
      alert.competitors.any (fun c => some c == summary.competitorId)
  let matchesPriority :=
    summary.priority == .P0 ||
      (summary.priority == .P1 && !(alert.minPriority == .P0))
  let matchesCapability :=
    alert.aiCapabilities.isEmpty ||
      summary.aiCapabilities.any (fun c => alert.aiCapabilities.contains c)
  matchesVertical && matchesCompetitor && matchesPriority && matchesCapability

/-- Body of the inner alert loop: when the rule matches and no
notification for `(alert.userId, summary.id)` exists yet, create one and
count it. -/
def alertStep (summary : StorySummaryRec) (st : Nat × List NotificationRec)
    (alert : UserAlert) : Nat × List NotificationRec :=
  if alertMatches alert summary then
    if st.2.any (fun n => n.userId == alert.userId && n.storyId == summary.id) then st
    else (st.1 + 1, st.2 ++ [⟨alert.userId, summary.id⟩])
  else st

/-- Embedding of `alertsJob` from `src/lib/ingestion.ts`: take recent
P0/P1 summaries (last six hours) and active alert rules, and for every
matching pair create at most one notification.  Returns `alertsSent` and
the updated store. -/
def alertsJob (now : Int) (db : AlertDB) : Nat × AlertDB :=
  let recentSummaries := db.summaries.filter
    (fun s => (s.priority == .P0 || s.priority == .P1) &&
      decide (now - 21600000 ≤ s.createdAt))
  let activeAlerts := db.alerts.filter (fun a => a.isActive)
  let r := recentSummaries.foldl
    (fun st s => activeAlerts.foldl (alertStep s) st) (0, db.notifications)
  (r.1, { db with notifications := r.2 })

/-! ## Pipeline runner `runAllJobs` from `src/lib/ingestion.ts`

Each stage is an effectful call that either returns its item counts or
throws; a thrown JS error is modelled by `Except.error` carrying the
error message.  `runAllJobs` is then a function of the five stage
outcomes: it inspects them in the fixed order, and on the first failure
writes the `FAILED` job log (item count 0, the raw message) and
re-throws; when all five succeed it writes `COMPLETED` with the
aggregated counts.
-/

/-- Job status (Prisma enum `JobStatus`). -/
inductive JobStatus where
  | RUNNING | COMPLETED | FAILED
deriving DecidableEq

/-- Job run log as written by `updateJobLog`. -/
structure JobRunLog where
  status : JobStatus
  itemsProcessed : Nat
  errorMessage : Option String
deriving DecidableEq

/-- Embedding of `runAllJobs`: the arguments are the outcomes of the
five stages in their fixed order (the clustering stage returns the pair
`(clustersCreated, itemsLinked)`); the result is the value returned or
re-thrown to the caller together with the final job log record. -/
def runAllJobs (fetchR normalizeR : Except String Nat)
    (clusterR : Except String (Nat × Nat))
    (summaryR alertsR : Except String Nat) :
    Except String Unit × JobRunLog :=
  match fetchR with
  | .error e => (.error e, ⟨.FAILED, 0, some e⟩)
  | .ok itemsFetched =>
    match normalizeR with
    | .error e => (.error e, ⟨.FAILED, 0, some e⟩)
    | .ok itemsProcessed =>
      match clusterR with
      | .error e => (.error e, ⟨.FAILED, 0, some e⟩)
      | .ok cluster =>
        match summaryR with
        | .error e => (.error e, ⟨.FAILED, 0, some e⟩)
        | .ok summariesCreated =>
          match alertsR with
          | .error e => (.error e, ⟨.FAILED, 0, some e⟩)
          | .ok alertsSent =>
            (.ok (), ⟨.COMPLETED,
              itemsFetched + itemsProcessed + cluster.2 + summariesCreated + alertsSent,
              none⟩)

/-! ## Invariant vocabulary for the clustering and alert runs -/

/-- Evolution of one raw item record during a clustering run: the run
either leaves a record unchanged or sets its processed flag. -/
def ItemEvolves (r r2 : RawItem) : Prop :=
  r2 = r ∨ r2 = { r with processed := true }

/-- Evolution of the raw item table: every record of the later table
evolves from some record of the earlier table. -/
def StoreEvolves (l l2 : List RawItem) : Prop :=
  ∀ r2 ∈ l2, ∃ r ∈ l, ItemEvolves r r2

/-- Every record with the given id is marked processed. -/
def MarkedIn (i : Nat) (l : List RawItem) : Prop :=
  ∀ r ∈ l, r.id = i → r.processed = true

/-! # Theorems -/

/-! ## Shared helper lemmas -/

/-- Two or more distinct values in a list, phrased through `dedup`. -/
theorem two_le_dedup_length_iff {α : Type _} [DecidableEq α] (l : List α) :
    2 ≤ l.dedup.length ↔ ∃ a ∈ l, ∃ b ∈ l, a ≠ b := by
  constructor
  · intro h
    match hd : l.dedup with
    | [] => rw [hd] at h; simp at h
    | [x] => rw [hd] at h; simp at h
    | x :: y :: rest =>
      have hnd := l.nodup_dedup
      rw [hd] at hnd
      have hxy : x ≠ y := by
        intro e
        subst e
        exact (List.nodup_cons.mp hnd).1 (List.mem_cons_self x rest)
      have hx : x ∈ l := List.mem_dedup.mp (hd ▸ List.mem_cons_self x (y :: rest))
      have hy : y ∈ l :=
        List.mem_dedup.mp (hd ▸ List.mem_cons_of_mem x (List.mem_cons_self y rest))
      exact ⟨x, hx, y, hy, hxy⟩
  · rintro ⟨a, ha, b, hb, hne⟩
    by_contra hlt
    push_neg at hlt
    match hd : l.dedup with
    | [] =>
      have : a ∈ l.dedup := List.mem_dedup.mpr ha
      rw [hd] at this
      simp at this
    | [x] =>
      have ha2 : a ∈ l.dedup := List.mem_dedup.mpr ha
      have hb2 : b ∈ l.dedup := List.mem_dedup.mpr hb
      rw [hd] at ha2 hb2
      simp at ha2 hb2
      exact hne (ha2.trans hb2.symm)
    | x :: y :: rest =>
      rw [hd] at hlt
      simp at hlt
      omega

/-! ## C1: priority detection is a strict cascade -/

/-- C1: for every text and capability set, priority detection is the
strict cascade P0 check, then P1 check, then the voice-agent capability
override, then the default P2; moreover on the concrete text
"acquisition beta", which matches the P0 pattern for acquisitions and
the P1 pattern "beta", the result is P0 for every capability set. -/
theorem detectPriority_cascade :
    (∀ (text : String) (caps : List AICapability),
      (P0_PATTERNS.any (fun p => reTest p text) = true →
        detectPriority text caps = .P0) ∧
      (P0_PATTERNS.any (fun p => reTest p text) = false →
        P1_PATTERNS.any (fun p => reTest p text) = true →
        detectPriority text caps = .P1) ∧
      (P0_PATTERNS.any (fun p => reTest p text) = false →
        P1_PATTERNS.any (fun p => reTest p text) = false →
        caps.contains .AI_VOICE_AGENT = true →
        detectPriority text caps = .P1) ∧
      (P0_PATTERNS.any (fun p => reTest p text) = false →
        P1_PATTERNS.any (fun p => reTest p text) = false →
        caps.contains .AI_VOICE_AGENT = false →
        detectPriority text caps = .P2)) ∧
    (∀ caps : List AICapability, detectPriority "acquisition beta" caps = .P0) ∧
    P1_PATTERNS.any (fun p => reTest p "acquisition beta") = true := by
  refine ⟨fun text caps => ⟨?_, ?_, ?_, ?_⟩, fun caps => ?_, by decide⟩
  · intro h0
    simp [detectPriority, h0]
  · intro h0 h1
    simp [detectPriority, h0, h1]
  · intro h0 h1 hc
    have hm : AICapability.AI_VOICE_AGENT ∈ caps := by simpa using hc
    simp [detectPriority, h0, h1, hm]
  · intro h0 h1 hc
    have hm : AICapability.AI_VOICE_AGENT ∉ caps := by simpa using hc
    simp [detectPriority, h0, h1, hm]
  · have h0 : P0_PATTERNS.any (fun p => reTest p "acquisition beta") = true := by decide
    simp [detectPriority, h0]

/-- Witness for C1: concrete inputs exercising each implication of the
cascade. -/
theorem detectPriority_cascade_witness :
    (P0_PATTERNS.any (fun p => reTest p "launch day") = true ∧
      detectPriority "launch day" [] = .P0) ∧
    (P0_PATTERNS.any (fun p => reTest p "beta rollout") = false ∧
      P1_PATTERNS.any (fun p => reTest p "beta rollout") = true ∧
      detectPriority "beta rollout" [] = .P1) ∧
    (P0_PATTERNS.any (fun p => reTest p "hello") = false ∧
      P1_PATTERNS.any (fun p => reTest p "hello") = false ∧
      detectPriority "hello" [.AI_VOICE_AGENT] = .P1) ∧
    (detectPriority "hello" [] = .P2) :=
  ⟨⟨by decide, (detectPriority_cascade.1 "launch day" []).1 (by decide)⟩,
   ⟨by decide, by decide,
    (detectPriority_cascade.1 "beta rollout" []).2.1 (by decide) (by decide)⟩,
   ⟨by decide, by decide,
    (detectPriority_cascade.1 "hello" [.AI_VOICE_AGENT]).2.2.1
      (by decide) (by decide) (by decide)⟩,
   (detectPriority_cascade.1 "hello" []).2.2.2 (by decide) (by decide) (by decide)⟩

/-! ## C2: verification status -/

/-- C2: with no AI capability detected the status is VERIFIED
unconditionally; with a capability detected it is VERIFIED exactly when
some contributing item has a HIGH-trust source or two distinct source
names occur, and CLAIM_UNVERIFIED otherwise; in particular a
single-source all-LOW cluster with AI claims is CLAIM_UNVERIFIED and
adding a second distinct-named LOW source flips it to VERIFIED. -/
theorem determineVerificationStatus_spec :
    (∀ items : List RawItemWithSource,
      determineVerificationStatus items false = .VERIFIED) ∧
    (∀ items : List RawItemWithSource,
      (determineVerificationStatus items true = .VERIFIED ↔
        (∃ i ∈ items, i.source.trustTier = .HIGH) ∨
        (∃ i ∈ items, ∃ j ∈ items, i.source.name ≠ j.source.name)) ∧
      (determineVerificationStatus items true = .CLAIM_UNVERIFIED ↔
        ¬((∃ i ∈ items, i.source.trustTier = .HIGH) ∨
          (∃ i ∈ items, ∃ j ∈ items, i.source.name ≠ j.source.name)))) ∧
    determineVerificationStatus [⟨1, "u1", none, none, ⟨.LOW, "src1"⟩⟩] true
      = .CLAIM_UNVERIFIED ∧
    determineVerificationStatus
      [⟨1, "u1", none, none, ⟨.LOW, "src1"⟩⟩, ⟨2, "u2", none, none, ⟨.LOW, "src2"⟩⟩]
      true = .VERIFIED := by
  have hcond : ∀ items : List RawItemWithSource,
      (items.any (fun i => i.source.trustTier == .HIGH)
        || decide (2 ≤ ((items.map (fun i => i.source.name)).dedup).length)) = true ↔
      (∃ i ∈ items, i.source.trustTier = .HIGH) ∨
      (∃ i ∈ items, ∃ j ∈ items, i.source.name ≠ j.source.name) := by
    intro items
    rw [Bool.or_eq_true, List.any_eq_true, decide_eq_true_eq,
      two_le_dedup_length_iff]
    constructor
    · rintro (⟨i, hi, he⟩ | ⟨a, ha, b, hb, hne⟩)
      · exact Or.inl ⟨i, hi, beq_iff_eq.mp he⟩
      · obtain ⟨i, hi, rfl⟩ := List.mem_map.mp ha
        obtain ⟨j, hj, rfl⟩ := List.mem_map.mp hb
        exact Or.inr ⟨i, hi, j, hj, hne⟩
    · rintro (⟨i, hi, he⟩ | ⟨i, hi, j, hj, hne⟩)
      · exact Or.inl ⟨i, hi, beq_iff_eq.mpr he⟩
      · exact Or.inr ⟨i.source.name, List.mem_map.mpr ⟨i, hi, rfl⟩,
          j.source.name, List.mem_map.mpr ⟨j, hj, rfl⟩, hne⟩
  refine ⟨fun items => rfl, fun items => ?_, by decide, by decide⟩
  constructor
  · rw [show determineVerificationStatus items true =
        (if (items.any (fun i => i.source.trustTier == .HIGH)
          || decide (2 ≤ ((items.map (fun i => i.source.name)).dedup).length)) = true
         then VerificationStatus.VERIFIED else .CLAIM_UNVERIFIED) from rfl]
    split
    · next h => exact iff_of_true rfl ((hcond items).mp h)
    · next h =>
        refine iff_of_false (by simp) ?_
        intro hx
        exact h ((hcond items).mpr hx)
  · rw [show determineVerificationStatus items true =
        (if (items.any (fun i => i.source.trustTier == .HIGH)
          || decide (2 ≤ ((items.map (fun i => i.source.name)).dedup).length)) = true
         then VerificationStatus.VERIFIED else .CLAIM_UNVERIFIED) from rfl]
    split
    · next h =>
        refine iff_of_false (by simp) ?_
        intro hx
        exact hx ((hcond items).mp h)
    · next h =>
        refine iff_of_true rfl ?_
        intro hx
        exact h ((hcond items).mpr hx)

/-- Witness for C2 (the universally quantified parts applied at concrete
clusters, with the verification bar met through two distinct names). -/
theorem determineVerificationStatus_spec_witness :
    determineVerificationStatus
      [⟨1, "u1", none, none, ⟨.LOW, "a"⟩⟩, ⟨2, "u2", none, none, ⟨.LOW, "b"⟩⟩] true
      = .VERIFIED :=
  (determineVerificationStatus_spec.2.1
      [⟨1, "u1", none, none, ⟨.LOW, "a"⟩⟩, ⟨2, "u2", none, none, ⟨.LOW, "b"⟩⟩]).1.mpr
    (Or.inr ⟨⟨1, "u1", none, none, ⟨.LOW, "a"⟩⟩, by decide,
      ⟨2, "u2", none, none, ⟨.LOW, "b"⟩⟩, by decide, by decide⟩)

/-! ## C3: confidence formula and clamping -/

/-- C3: the confidence score equals the documented formula (base 3.0,
the two additive HIGH-trust bonuses, the MEDIUM-trust bonus, the
verification adjustment and the corroboration bonus, rounded half-up
and clamped, all in exact half-point arithmetic) and is always an
integer in [1, 5]; the adversarial extreme of five HIGH-trust VERIFIED
items clamps at 5. -/
theorem calculateConfidence_spec :
    (∀ (items : List RawItemWithSource) (status : VerificationStatus),
      calculateConfidence items status = specConfidence items status) ∧
    (∀ (items : List RawItemWithSource) (status : VerificationStatus),
      1 ≤ calculateConfidence items status ∧ calculateConfidence items status ≤ 5) ∧
    calculateConfidence
      [⟨1, "u1", none, none, ⟨.HIGH, "a"⟩⟩, ⟨2, "u2", none, none, ⟨.HIGH, "b"⟩⟩,
       ⟨3, "u3", none, none, ⟨.HIGH, "c"⟩⟩, ⟨4, "u4", none, none, ⟨.HIGH, "d"⟩⟩,
       ⟨5, "u5", none, none, ⟨.HIGH, "e"⟩⟩] .VERIFIED = 5 := by
  refine ⟨fun items status => ?_, fun items status => ?_, by decide⟩
  · simp only [calculateConfidence, specConfidence, ge_iff_le, beq_iff_eq]
    split_ifs <;> rfl
  · simp only [calculateConfidence, ge_iff_le, jsRoundHalf]
    split_ifs <;> decide

/-! ## C10: the reachable confidence range is 3 to 5 -/

/-- C10: the confidence score is never below 3 (the only deduction,
the CLAIM_UNVERIFIED half-point penalty, leaves at least 2.5, which
rounds to 3, so the documented lower clamp at 1 is never binding), and
each of the values 3, 4 and 5 is reachable. -/
theorem calculateConfidence_lower_bound :
    (∀ (items : List RawItemWithSource) (status : VerificationStatus),
      3 ≤ calculateConfidence items status ∧ calculateConfidence items status ≤ 5) ∧
    calculateConfidence [] .CLAIM_UNVERIFIED = 3 ∧
    calculateConfidence [⟨1, "w1", none, none, ⟨.LOW, "x"⟩⟩] .VERIFIED = 4 ∧
    calculateConfidence [⟨1, "w1", none, none, ⟨.HIGH, "x"⟩⟩,
      ⟨2, "w2", none, none, ⟨.HIGH, "y"⟩⟩] .VERIFIED = 5 := by
  refine ⟨fun items status => ?_, by decide, by decide, by decide⟩
  simp only [calculateConfidence, ge_iff_le, jsRoundHalf]
  split_ifs <;> decide

/-! ## C6: workflow-automation fallback for AI-adjacent text -/

/-- C6: for every text matching none of the AI-capability patterns but
containing the standalone word-boundary token "ai",
`detectAICapabilities` returns exactly the singleton workflow-automation
set, so an AI-adjacent story is never tag-less. -/
theorem detectAICapabilities_fallback :
    ∀ text : String,
      (∀ cap ∈ allCapabilities, capabilityMatches text cap = false) →
      containsWordAi text = true →
      detectAICapabilities text = [.AI_WORKFLOW_AUTOMATION] := by
  intro text hnone hai
  have hfil : allCapabilities.filter (capabilityMatches text) = [] := by
    rw [List.filter_eq_nil_iff]
    intro a ha
    simp [hnone a ha]
  simp [detectAICapabilities, hfil, hai]

/-- Witness for C6: a concrete text that matches none of the sixty
capability patterns yet contains the standalone token "ai". -/
theorem detectAICapabilities_fallback_witness :
    (∀ cap ∈ allCapabilities, capabilityMatches "we use ai daily" cap = false) ∧
    containsWordAi "we use ai daily" = true ∧
    detectAICapabilities "we use ai daily" = [.AI_WORKFLOW_AUTOMATION] :=
  ⟨by decide, by decide,
   detectAICapabilities_fallback "we use ai daily" (by decide) (by decide)⟩

/-! ## C8: pipeline failure handling -/

/-- C8 (amended): when a stage of the full pipeline fails, the run log
is recorded FAILED with a 0 item count and the error message stored
unmodified (counts accumulated before the failure are not persisted),
and the error is re-thrown to the caller; when no stage fails the log is
COMPLETED with the aggregated item counts of the five stages run in the
fixed order. -/
theorem runAllJobs_spec :
    (∀ (e : String) (n : Except String Nat) (c : Except String (Nat × Nat))
        (s a : Except String Nat),
      runAllJobs (.error e) n c s a = (.error e, ⟨.FAILED, 0, some e⟩)) ∧
    (∀ (f : Nat) (e : String) (c : Except String (Nat × Nat)) (s a : Except String Nat),
      runAllJobs (.ok f) (.error e) c s a = (.error e, ⟨.FAILED, 0, some e⟩)) ∧
    (∀ (f n : Nat) (e : String) (s a : Except String Nat),
      runAllJobs (.ok f) (.ok n) (.error e) s a = (.error e, ⟨.FAILED, 0, some e⟩)) ∧
    (∀ (f n : Nat) (c : Nat × Nat) (e : String) (a : Except String Nat),
      runAllJobs (.ok f) (.ok n) (.ok c) (.error e) a = (.error e, ⟨.FAILED, 0, some e⟩)) ∧
    (∀ (f n : Nat) (c : Nat × Nat) (s : Nat) (e : String),
      runAllJobs (.ok f) (.ok n) (.ok c) (.ok s) (.error e)
        = (.error e, ⟨.FAILED, 0, some e⟩)) ∧
    (∀ (f n : Nat) (c : Nat × Nat) (s a : Nat),
      runAllJobs (.ok f) (.ok n) (.ok c) (.ok s) (.ok a)
        = (.ok (), ⟨.COMPLETED, f + n + c.2 + s + a, none⟩)) :=
  ⟨fun _ _ _ _ _ => rfl, fun _ _ _ _ _ => rfl, fun _ _ _ _ _ => rfl,
   fun _ _ _ _ _ => rfl, fun _ _ _ _ _ => rfl, fun _ _ _ _ _ => rfl⟩

/-- Counterexample to C8 as stated: the error message recorded on a
failed run is not truncated; a 1000-character message is stored in
full. -/
theorem runAllJobs_no_truncation :
    (runAllJobs (.error (String.mk (List.replicate 1000 'e'))) (.ok 0) (.ok (0, 0))
        (.ok 0) (.ok 0)).2.errorMessage = some (String.mk (List.replicate 1000 'e')) ∧
    (String.mk (List.replicate 1000 'e')).length = 1000 :=
  ⟨rfl, by exact List.length_replicate ..⟩

/-! ## C4: competitor detection is first-match in configured order -/

/-- Loop of `detectCompetitor` as a first-match search over the
per-competitor condition. -/
theorem detectCompetitorLoop_eq_find (tl : String) :
    ∀ comps : List CompetitorConfig,
      detectCompetitorLoop tl comps = comps.find? (compMatchesLower tl) := by
  intro comps
  induction comps with
  | nil => rfl
  | cons c rest ih =>
    rw [show detectCompetitorLoop tl (c :: rest)
        = (if strContains tl (strLower c.name) then some c
           else if c.keywords.any (fun k => strContains tl (strLower k)) then some c
           else detectCompetitorLoop tl rest) from rfl]
    rw [List.find?_cons]
    cases hname : strContains tl (strLower c.name) with
    | true =>
      have hp : compMatchesLower tl c = true := by
        unfold compMatchesLower
        rw [hname, Bool.true_or]
      simp [hname, hp]
    | false =>
      cases hkw : c.keywords.any (fun k => strContains tl (strLower k)) with
      | true =>
        have hp : compMatchesLower tl c = true := by
          unfold compMatchesLower
          rw [hname, hkw, Bool.false_or]
        simp [hname, hkw, hp]
      | false =>
        have hp : compMatchesLower tl c = false := by
          unfold compMatchesLower
          rw [hname, hkw, Bool.false_or]
        simp [hname, hkw, hp, ih]

/-- Characterization of a successful first-match search: the found
element splits the list, passes the test, and everything configured
before it fails the test. -/
theorem find?_eq_some_split {α : Type _} {p : α → Bool} :
    ∀ {l : List α} {c : α}, l.find? p = some c →
      ∃ l1 l2, l = l1 ++ c :: l2 ∧ p c = true ∧ ∀ e ∈ l1, p e = false := by
  intro l
  induction l with
  | nil => intro c h; simp [List.find?] at h
  | cons a rest ih =>
    intro c h
    simp only [List.find?_cons] at h
    cases hpa : p a with
    | true =>
      rw [hpa] at h
      obtain rfl : a = c := by simpa using h
      exact ⟨[], rest, rfl, hpa, by simp⟩
    | false =>
      rw [hpa] at h
      obtain ⟨l1, l2, rfl, hc, hall⟩ := ih h
      refine ⟨a :: l1, l2, rfl, hc, ?_⟩
      intro e he
      rcases List.mem_cons.mp he with rfl | he2
      · exact hpa
      · exact hall e he2

/-- C4: competitor detection is first-match in configured order:
`detectCompetitor` is the first-match search over the name-or-keyword
substring condition; a text containing a configured competitor name
always yields a non-null result; the returned competitor matches while
every competitor configured before it does not (so of two appearing
competitors the one listed earlier wins); and in the clusterer an item
matching no competitor receives the sentinel key "unknown". -/
theorem detectCompetitor_first_match :
    (∀ (text : String) (comps : List CompetitorConfig),
      detectCompetitor text comps = comps.find? (compMatchesLower (strLower text))) ∧
    (∀ (text : String) (comps : List CompetitorConfig) (c : CompetitorConfig),
      c ∈ comps → strContains (strLower text) (strLower c.name) = true →
      (detectCompetitor text comps).isSome = true) ∧
    (∀ (text : String) (comps : List CompetitorConfig) (c : CompetitorConfig),
      detectCompetitor text comps = some c →
      ∃ l1 l2, comps = l1 ++ c :: l2 ∧
        compMatchesLower (strLower text) c = true ∧
        ∀ e ∈ l1, compMatchesLower (strLower text) e = false) ∧
    (∀ (comps : List CompetitorConfig) (it : RawItem),
      (∀ c ∈ comps,
        compMatchesLower (strLower ((it.title.getD "") ++ " " ++ (it.rawText.getD ""))) c
          = false) →
      competitorKeyOf comps it = "unknown") := by
  refine ⟨?_, ?_, ?_, ?_⟩
  · intro text comps
    exact detectCompetitorLoop_eq_find (strLower text) comps
  · intro text comps c hc hname
    rw [show detectCompetitor text comps = detectCompetitorLoop (strLower text) comps
        from rfl]
    rw [detectCompetitorLoop_eq_find, List.find?_isSome]
    refine ⟨c, hc, ?_⟩
    unfold compMatchesLower
    rw [hname, Bool.true_or]
  · intro text comps c h
    rw [show detectCompetitor text comps = detectCompetitorLoop (strLower text) comps
        from rfl, detectCompetitorLoop_eq_find] at h
    exact find?_eq_some_split h
  · intro comps it hall
    have hnone : comps.find? (compMatchesLower
        (strLower ((it.title.getD "") ++ " " ++ (it.rawText.getD "")))) = none :=
      List.find?_eq_none.mpr (by intro x hx; simp [hall x hx])
    simp only [competitorKeyOf]
    rw [hnone]

/-- Witness for C4: a concrete configuration and text in which the
first-listed competitor appears, and a concrete item matching no
competitor being keyed "unknown". -/
theorem detectCompetitor_first_match_witness :
    ((⟨"ServiceTitan", ["titan"]⟩ : CompetitorConfig)
        ∈ [(⟨"ServiceTitan", ["titan"]⟩ : CompetitorConfig), ⟨"Jobber", []⟩] ∧
      strContains (strLower "News about ServiceTitan and Jobber")
        (strLower "ServiceTitan") = true ∧
      (detectCompetitor "News about ServiceTitan and Jobber"
        [⟨"ServiceTitan", ["titan"]⟩, ⟨"Jobber", []⟩]).isSome = true) ∧
    competitorKeyOf [⟨"ServiceTitan", ["titan"]⟩]
      ⟨1, some "hello", some "world", false⟩ = "unknown" :=
  ⟨⟨by decide, by decide,
    detectCompetitor_first_match.2.1 "News about ServiceTitan and Jobber"
      [⟨"ServiceTitan", ["titan"]⟩, ⟨"Jobber", []⟩] ⟨"ServiceTitan", ["titan"]⟩
      (by decide) (by decide)⟩,
   detectCompetitor_first_match.2.2.2 [⟨"ServiceTitan", ["titan"]⟩]
     ⟨1, some "hello", some "world", false⟩ (by decide)⟩

/-! ## C7: cluster reuse within 24 hours, else creation with fallback title -/

/-- One link step leaves the cluster table unchanged. -/
theorem linkStep_clusters (cid : Nat) (st : ClusterDB × Nat) (it : RawItem) :
    (linkStep cid st it).1.clusters = st.1.clusters := by
  simp only [linkStep]
  split <;> rfl

/-- The link loop leaves the cluster table unchanged. -/
theorem foldl_linkStep_clusters (cid : Nat) :
    ∀ (its : List RawItem) (st : ClusterDB × Nat),
      (its.foldl (linkStep cid) st).1.clusters = st.1.clusters := by
  intro its
  induction its with
  | nil => intro st; rfl
  | cons a rest ih =>
    intro st
    rw [List.foldl_cons, ih, linkStep_clusters]

/-- Cluster table preservation, phrased on `linkItems`. -/
theorem linkItems_clusters (cid : Nat) (its : List RawItem) (db : ClusterDB)
    (il : Nat) : (linkItems cid its db il).1.clusters = db.clusters :=
  foldl_linkStep_clusters cid its (db, il)

/-- C7 (amended): for every competitor group of a clustering run, when
some existing cluster has the competitor key in its canonical title and
was created within the last 24 hours, the first such cluster is reused
(no cluster is created; only its `updatedAt` is bumped to now);
otherwise a new cluster is created whose canonical title is the first
item title, falling back to "(key) Updates - (ISO date)" when that title
is absent or empty (JS falsiness of the title in the source). -/
theorem clusterResolution_spec :
    ∀ (now : Int) (db : ClusterDB) (cc il : Nat) (key : String)
      (first : RawItem) (rest : List RawItem),
      (∀ c, findExistingCluster now key db = some c →
        strContains c.canonicalTitle key = true ∧
        now - 86400000 ≤ c.createdAt ∧
        (processGroup now (db, cc, il) (key, first :: rest)).1.clusters
          = db.clusters.map (bumpUpdatedAt c.id now) ∧
        (processGroup now (db, cc, il) (key, first :: rest)).2.1 = cc) ∧
      (findExistingCluster now key db = none →
        (processGroup now (db, cc, il) (key, first :: rest)).1.clusters
          = db.clusters ++ [⟨db.nextClusterId,
              jsStrOrElse first.title (key ++ " Updates - " ++ isoDateOfMs now),
              now, now⟩] ∧
        (processGroup now (db, cc, il) (key, first :: rest)).2.1 = cc + 1) := by
  intro now db cc il key first rest
  constructor
  · intro c hc
    have hp := List.find?_some hc
    rw [Bool.and_eq_true] at hp
    refine ⟨hp.1, of_decide_eq_true hp.2, ?_, ?_⟩
    · simp only [processGroup, hc]
      rw [linkItems_clusters]
    · simp only [processGroup, hc]
  · intro hc
    constructor
    · simp only [processGroup, hc]
      rw [linkItems_clusters]
    · simp only [processGroup, hc]

/-- Witness for C7: a concrete run reusing a recent "unknown" cluster
(bumping its timestamp, creating nothing), and a concrete run creating a
cluster with the dated fallback title. -/
theorem clusterResolution_spec_witness :
    ((processGroup 1760140800000
        (⟨[], [⟨7, "unknown Updates", 1760100000000, 1760100000000⟩], [], 9⟩, 0, 0)
        ("unknown", [⟨5, none, some "t", false⟩])).1.clusters
      = [⟨7, "unknown Updates", 1760100000000, 1760100000000⟩].map
          (bumpUpdatedAt 7 1760140800000) ∧
      (processGroup 1760140800000
        (⟨[], [⟨7, "unknown Updates", 1760100000000, 1760100000000⟩], [], 9⟩, 0, 0)
        ("unknown", [⟨5, none, some "t", false⟩])).2.1 = 0) ∧
    ((processGroup 1760140800000 (⟨[], [], [], 3⟩, 0, 0)
        ("Jobber", [⟨6, none, some "x", false⟩])).1.clusters
      = [] ++ [⟨3, jsStrOrElse (none : Option String)
          ("Jobber" ++ " Updates - " ++ isoDateOfMs 1760140800000),
          1760140800000, 1760140800000⟩] ∧
      (processGroup 1760140800000 (⟨[], [], [], 3⟩, 0, 0)
        ("Jobber", [⟨6, none, some "x", false⟩])).2.1 = 0 + 1) :=
  ⟨⟨((clusterResolution_spec 1760140800000
        ⟨[], [⟨7, "unknown Updates", 1760100000000, 1760100000000⟩], [], 9⟩ 0 0
        "unknown" ⟨5, none, some "t", false⟩ []).1
      ⟨7, "unknown Updates", 1760100000000, 1760100000000⟩ (by decide)).2.2.1,
    ((clusterResolution_spec 1760140800000
        ⟨[], [⟨7, "unknown Updates", 1760100000000, 1760100000000⟩], [], 9⟩ 0 0
        "unknown" ⟨5, none, some "t", false⟩ []).1
      ⟨7, "unknown Updates", 1760100000000, 1760100000000⟩ (by decide)).2.2.2⟩,
   ⟨((clusterResolution_spec 1760140800000 ⟨[], [], [], 3⟩ 0 0
        "Jobber" ⟨6, none, some "x", false⟩ []).2 (by decide)).1,
    ((clusterResolution_spec 1760140800000 ⟨[], [], [], 3⟩ 0 0
        "Jobber" ⟨6, none, some "x", false⟩ []).2 (by decide)).2⟩⟩

/-- Counterexample to C7 as stated: a group whose first item carries the
empty string as its title (present, not absent) still gets the dated
fallback as the canonical title of the created cluster, because the
source falls back on every falsy title, the empty string included — the
created cluster is not titled with the first item title "". -/
theorem clusterTitle_empty_falsy :
    ((⟨4, some "", some "body", false⟩ : RawItem).title = some "") ∧
    (processGroup 1760140800000 (⟨[], [], [], 0⟩, 0, 0)
        ("Acme", [⟨4, some "", some "body", false⟩])).1.clusters
      = [⟨0, "Acme Updates - 2025-10-11", 1760140800000, 1760140800000⟩] ∧
    "Acme Updates - 2025-10-11" ≠ "" :=
  ⟨rfl, by decide, by decide⟩

/-! ## C5: clustering is idempotent, links deduplicated, counts actual -/

/-- Record evolution is reflexive. -/
theorem itemEvolves_refl (r : RawItem) : ItemEvolves r r := Or.inl rfl

/-- Record evolution is transitive (marking twice marks once). -/
theorem itemEvolves_trans {r r2 r3 : RawItem}
    (h1 : ItemEvolves r r2) (h2 : ItemEvolves r2 r3) : ItemEvolves r r3 := by
  rcases h1 with rfl | rfl
  · exact h2
  · rcases h2 with rfl | rfl
    · exact Or.inr rfl
    · exact Or.inr rfl

/-- Evolution preserves the id. -/
theorem itemEvolves_id_eq {r r2 : RawItem} (h : ItemEvolves r r2) :
    r2.id = r.id := by
  rcases h with rfl | rfl <;> rfl

/-- Evolution never unsets the processed flag. -/
theorem itemEvolves_processed_mono {r r2 : RawItem} (h : ItemEvolves r r2)
    (hp : r.processed = true) : r2.processed = true := by
  rcases h with rfl | rfl
  · exact hp
  · rfl

/-- Table evolution is reflexive. -/
theorem storeEvolves_refl (l : List RawItem) : StoreEvolves l l :=
  fun r hr => ⟨r, hr, Or.inl rfl⟩

/-- Table evolution is transitive. -/
theorem storeEvolves_trans {a b c : List RawItem}
    (h1 : StoreEvolves a b) (h2 : StoreEvolves b c) : StoreEvolves a c := by
  intro r3 h3
  obtain ⟨r2, h2m, he2⟩ := h2 r3 h3
  obtain ⟨r1, h1m, he1⟩ := h1 r2 h2m
  exact ⟨r1, h1m, itemEvolves_trans he1 he2⟩

/-- Marking one id makes the table evolve. -/
theorem storeEvolves_markProcessed (i : Nat) (l : List RawItem) :
    StoreEvolves l (markProcessed i l) := by
  intro r2 h2
  obtain ⟨r, hr, rfl⟩ := List.mem_map.mp h2
  refine ⟨r, hr, ?_⟩
  by_cases hid : (r.id == i) = true
  · rw [if_pos hid]
    exact Or.inr rfl
  · rw [if_neg hid]
    exact Or.inl rfl

/-- Marking an id marks it. -/
theorem markedIn_markProcessed (i : Nat) (l : List RawItem) :
    MarkedIn i (markProcessed i l) := by
  intro r2 h2 hid
  obtain ⟨r, hr, rfl⟩ := List.mem_map.mp h2
  by_cases h : (r.id == i) = true
  · rw [if_pos h]
  · rw [if_neg h] at hid
    exact absurd (beq_iff_eq.mpr hid) h

/-- Marking persists through table evolution. -/
theorem markedIn_evolves {i : Nat} {l l2 : List RawItem}
    (hm : MarkedIn i l) (he : StoreEvolves l l2) : MarkedIn i l2 := by
  intro r2 h2 hid
  obtain ⟨r, hr, hev⟩ := he r2 h2
  exact itemEvolves_processed_mono hev (hm r hr (itemEvolves_id_eq hev ▸ hid))

/-- The raw item table after one link step is the old table with the
item id marked. -/
theorem linkStep_rawItems (cid : Nat) (st : ClusterDB × Nat) (it : RawItem) :
    (linkStep cid st it).1.rawItems = markProcessed it.id st.1.rawItems := by
  simp only [linkStep]
  split <;> rfl

/-- The raw item table evolves through the link loop. -/
theorem foldl_linkStep_evolves (cid : Nat) :
    ∀ (its : List RawItem) (st : ClusterDB × Nat),
      StoreEvolves st.1.rawItems ((its.foldl (linkStep cid) st)).1.rawItems := by
  intro its
  induction its with
  | nil => intro st; exact storeEvolves_refl _
  | cons a rest ih =>
    intro st
    rw [List.foldl_cons]
    refine storeEvolves_trans ?_ (ih _)
    rw [linkStep_rawItems]
    exact storeEvolves_markProcessed _ _

/-- After the link loop every item of the group is marked processed. -/
theorem foldl_linkStep_marks (cid : Nat) :
    ∀ (its : List RawItem) (st : ClusterDB × Nat), ∀ it ∈ its,
      MarkedIn it.id ((its.foldl (linkStep cid) st)).1.rawItems := by
  intro its
  induction its with
  | nil => intro st it h; simp at h
  | cons a rest ih =>
    intro st it h
    rw [List.foldl_cons]
    rcases List.mem_cons.mp h with rfl | h2
    · refine markedIn_evolves ?_ (foldl_linkStep_evolves cid rest _)
      rw [linkStep_rawItems]
      exact markedIn_markProcessed _ _
    · exact ih _ it h2

/-- One link step grows the link table by exactly its reported count. -/
theorem linkStep_links_count (cid : Nat) (st : ClusterDB × Nat) (it : RawItem) :
    (linkStep cid st it).1.links.length + st.2
      = st.1.links.length + (linkStep cid st it).2 := by
  simp only [linkStep]
  split
  · rfl
  · simp only [List.length_append, List.length_singleton]
    omega

/-- The link loop grows the link table by exactly its reported count. -/
theorem foldl_linkStep_links_count (cid : Nat) :
    ∀ (its : List RawItem) (st : ClusterDB × Nat),
      ((its.foldl (linkStep cid) st)).1.links.length + st.2
        = st.1.links.length + ((its.foldl (linkStep cid) st)).2 := by
  intro its
  induction its with
  | nil => intro st; rfl
  | cons a rest ih =>
    intro st
    rw [List.foldl_cons]
    have h1 := linkStep_links_count cid st a
    have h2 := ih (linkStep cid st a)
    omega

/-- One link step preserves freedom from duplicate links (a link is only
appended when no identical pair is present). -/
theorem linkStep_links_nodup (cid : Nat) (st : ClusterDB × Nat) (it : RawItem)
    (h : st.1.links.Nodup) : (linkStep cid st it).1.links.Nodup := by
  simp only [linkStep]
  split
  · exact h
  · next hn =>
      rw [List.nodup_append]
      refine ⟨h, List.nodup_singleton _, ?_⟩
      intro p hp hp2
      rw [List.mem_singleton] at hp2
      subst hp2
      exact hn (List.any_eq_true.mpr ⟨(cid, it.id), hp, by simp⟩)

/-- The link loop preserves freedom from duplicate links. -/
theorem foldl_linkStep_links_nodup (cid : Nat) :
    ∀ (its : List RawItem) (st : ClusterDB × Nat),
      st.1.links.Nodup → ((its.foldl (linkStep cid) st)).1.links.Nodup := by
  intro its
  induction its with
  | nil => intro st h; exact h
  | cons a rest ih =>
    intro st h
    rw [List.foldl_cons]
    exact ih _ (linkStep_links_nodup cid st a h)

/-- The raw item table evolves through one group step. -/
theorem processGroup_rawItems_evolves (now : Int) (acc : ClusterDB × Nat × Nat)
    (g : String × List RawItem) :
    StoreEvolves acc.1.rawItems ((processGroup now acc g)).1.rawItems := by
  rcases g with ⟨key, items⟩
  cases items with
  | nil => exact storeEvolves_refl _
  | cons first rest =>
    simp only [processGroup]
    cases hfc : findExistingCluster now key acc.1 with
    | some c =>
      simp only [hfc]
      exact foldl_linkStep_evolves c.id (first :: rest) _
    | none =>
      simp only [hfc]
      exact foldl_linkStep_evolves _ (first :: rest) _

/-- After one group step every item of the group is marked processed. -/
theorem processGroup_marks (now : Int) (acc : ClusterDB × Nat × Nat)
    (g : String × List RawItem) :
    ∀ it ∈ g.2, MarkedIn it.id ((processGroup now acc g)).1.rawItems := by
  rcases g with ⟨key, items⟩
  cases items with
  | nil => intro it h; simp at h
  | cons first rest =>
    intro it h
    simp only [processGroup]
    cases hfc : findExistingCluster now key acc.1 with
    | some c =>
      simp only [hfc]
      exact foldl_linkStep_marks c.id (first :: rest) _ it h
    | none =>
      simp only [hfc]
      exact foldl_linkStep_marks _ (first :: rest) _ it h

/-- One group step grows the cluster table by exactly its reported
creation count. -/
theorem processGroup_clusters_count (now : Int) (acc : ClusterDB × Nat × Nat)
    (g : String × List RawItem) :
    ((processGroup now acc g)).1.clusters.length + acc.2.1
      = acc.1.clusters.length + ((processGroup now acc g)).2.1 := by
  rcases g with ⟨key, items⟩
  cases items with
  | nil => rfl
  | cons first rest =>
    simp only [processGroup]
    cases hfc : findExistingCluster now key acc.1 with
    | some c =>
      simp only [hfc]
      rw [linkItems_clusters]
      simp [List.length_map]
    | none =>
      simp only [hfc]
      rw [linkItems_clusters]
      simp only [List.length_append, List.length_singleton]
      omega

/-- One group step grows the link table by exactly its reported link
count. -/
theorem processGroup_links_count (now : Int) (acc : ClusterDB × Nat × Nat)
    (g : String × List RawItem) :
    ((processGroup now acc g)).1.links.length + acc.2.2
      = acc.1.links.length + ((processGroup now acc g)).2.2 := by
  rcases g with ⟨key, items⟩
  cases items with
  | nil => rfl
  | cons first rest =>
    simp only [processGroup]
    cases hfc : findExistingCluster now key acc.1 with
    | some c =>
      simp only [hfc]
      exact foldl_linkStep_links_count c.id (first :: rest) _
    | none =>
      simp only [hfc]
      exact foldl_linkStep_links_count _ (first :: rest) _

/-- One group step preserves freedom from duplicate links. -/
theorem processGroup_links_nodup (now : Int) (acc : ClusterDB × Nat × Nat)
    (g : String × List RawItem) (h : acc.1.links.Nodup) :
    ((processGroup now acc g)).1.links.Nodup := by
  rcases g with ⟨key, items⟩
  cases items with
  | nil => exact h
  | cons first rest =>
    simp only [processGroup]
    cases hfc : findExistingCluster now key acc.1 with
    | some c =>
      simp only [hfc]
      exact foldl_linkStep_links_nodup c.id (first :: rest) _ h
    | none =>
      simp only [hfc]
      exact foldl_linkStep_links_nodup _ (first :: rest) _ h

/-- The raw item table evolves through the whole group loop. -/
theorem foldl_processGroup_evolves (now : Int) :
    ∀ (gs : List (String × List RawItem)) (acc : ClusterDB × Nat × Nat),
      StoreEvolves acc.1.rawItems ((gs.foldl (processGroup now) acc)).1.rawItems := by
  intro gs
  induction gs with
  | nil => intro acc; exact storeEvolves_refl _
  | cons g rest ih =>
    intro acc
    rw [List.foldl_cons]
    exact storeEvolves_trans (processGroup_rawItems_evolves now acc g) (ih _)

/-- After the group loop every item of every group is marked processed. -/
theorem foldl_processGroup_marks (now : Int) :
    ∀ (gs : List (String × List RawItem)) (acc : ClusterDB × Nat × Nat),
      ∀ g ∈ gs, ∀ it ∈ g.2,
        MarkedIn it.id ((gs.foldl (processGroup now) acc)).1.rawItems := by
  intro gs
  induction gs with
  | nil => intro acc g hg; simp at hg
  | cons g0 rest ih =>
    intro acc g hg it hit
    rw [List.foldl_cons]
    rcases List.mem_cons.mp hg with rfl | hg2
    · exact markedIn_evolves (processGroup_marks now acc g it hit)
        (foldl_processGroup_evolves now rest _)
    · exact ih _ g hg2 it hit

/-- The group loop grows the cluster table by exactly the reported
creation count. -/
theorem foldl_processGroup_clusters_count (now : Int) :
    ∀ (gs : List (String × List RawItem)) (acc : ClusterDB × Nat × Nat),
      ((gs.foldl (processGroup now) acc)).1.clusters.length + acc.2.1
        = acc.1.clusters.length + ((gs.foldl (processGroup now) acc)).2.1 := by
  intro gs
  induction gs with
  | nil => intro acc; rfl
  | cons g rest ih =>
    intro acc
    rw [List.foldl_cons]
    have h1 := processGroup_clusters_count now acc g
    have h2 := ih (processGroup now acc g)
    omega

/-- The group loop grows the link table by exactly the reported link
count. -/
theorem foldl_processGroup_links_count (now : Int) :
    ∀ (gs : List (String × List RawItem)) (acc : ClusterDB × Nat × Nat),
      ((gs.foldl (processGroup now) acc)).1.links.length + acc.2.2
        = acc.1.links.length + ((gs.foldl (processGroup now) acc)).2.2 := by
  intro gs
  induction gs with
  | nil => intro acc; rfl
  | cons g rest ih =>
    intro acc
    rw [List.foldl_cons]
    have h1 := processGroup_links_count now acc g
    have h2 := ih (processGroup now acc g)
    omega

/-- The group loop preserves freedom from duplicate links. -/
theorem foldl_processGroup_links_nodup (now : Int) :
    ∀ (gs : List (String × List RawItem)) (acc : ClusterDB × Nat × Nat),
      acc.1.links.Nodup → ((gs.foldl (processGroup now) acc)).1.links.Nodup := by
  intro gs
  induction gs with
  | nil => intro acc h; exact h
  | cons g rest ih =>
    intro acc h
    rw [List.foldl_cons]
    exact ih _ (processGroup_links_nodup now acc g h)

/-- Inserting an item into the group map keeps it findable. -/
theorem addToGroups_mem_self (key : String) (it : RawItem) :
    ∀ gs : List (String × List RawItem),
      ∃ g ∈ addToGroups key it gs, it ∈ g.2 := by
  intro gs
  induction gs with
  | nil => exact ⟨(key, [it]), by simp [addToGroups]⟩
  | cons p rest ih =>
    rcases p with ⟨k, its⟩
    simp only [addToGroups]
    by_cases hk : (k == key) = true
    · rw [if_pos hk]
      exact ⟨(k, its ++ [it]), List.mem_cons_self _ _, by simp⟩
    · rw [if_neg hk]
      obtain ⟨g, hg, hgm⟩ := ih
      exact ⟨g, List.mem_cons_of_mem _ hg, hgm⟩

/-- Inserting an item into the group map keeps previous members
findable. -/
theorem addToGroups_mem_mono (key : String) (it x : RawItem) :
    ∀ gs : List (String × List RawItem),
      (∃ g ∈ gs, x ∈ g.2) → ∃ g ∈ addToGroups key it gs, x ∈ g.2 := by
  intro gs
  induction gs with
  | nil =>
    rintro ⟨g, hg, _⟩
    simp at hg
  | cons p rest ih =>
    rintro ⟨g, hg, hx⟩
    rcases p with ⟨k, its⟩
    simp only [addToGroups]
    by_cases hk : (k == key) = true
    · rw [if_pos hk]
      rcases List.mem_cons.mp hg with rfl | hg2
      · exact ⟨(k, its ++ [it]), List.mem_cons_self _ _,
          List.mem_append_left _ hx⟩
      · exact ⟨g, List.mem_cons_of_mem _ hg2, hx⟩
    · rw [if_neg hk]
      rcases List.mem_cons.mp hg with rfl | hg2
      · exact ⟨(k, its), List.mem_cons_self _ _, hx⟩
      · obtain ⟨g2, hg2b, hx2⟩ := ih ⟨g, hg2, hx⟩
        exact ⟨g2, List.mem_cons_of_mem _ hg2b, hx2⟩

/-- Every item of the batch lands in some bucket of the group map. -/
theorem groupItems_covers (comps : List CompetitorConfig) :
    ∀ (items : List RawItem) (gs0 : List (String × List RawItem)) (x : RawItem),
      (x ∈ items ∨ ∃ g ∈ gs0, x ∈ g.2) →
      ∃ g ∈ items.foldl
          (fun gs it => addToGroups (competitorKeyOf comps it) it gs) gs0,
        x ∈ g.2 := by
  intro items
  induction items with
  | nil =>
    intro gs0 x h
    rcases h with h | h
    · simp at h
    · exact h
  | cons a rest ih =>
    intro gs0 x h
    rw [List.foldl_cons]
    apply ih
    rcases h with h | h
    · rcases List.mem_cons.mp h with rfl | h2
      · exact Or.inr (addToGroups_mem_self _ _ _)
      · exact Or.inl h2
    · exact Or.inr (addToGroups_mem_mono _ _ _ _ h)

/-- C5: the clustering job marks every consumed item processed (whether
or not a link was created for it), its returned counts are the actual
numbers of clusters and links created, it never duplicates an existing
(cluster, item) link, and when the batch covers all eligible items a
second run over the resulting store creates nothing and changes
nothing. -/
theorem dedupeAndClusterJob_idempotent :
    ∀ (comps : List CompetitorConfig) (now now2 : Int) (db : ClusterDB),
      (db.rawItems.filter itemEligible).length ≤ 100 →
      ((dedupeAndClusterJob comps now2 (dedupeAndClusterJob comps now db).2).1
          = (0, 0) ∧
        (dedupeAndClusterJob comps now2 (dedupeAndClusterJob comps now db).2).2
          = (dedupeAndClusterJob comps now db).2) ∧
      (∀ it ∈ (db.rawItems.filter itemEligible).take 100,
        ∀ r ∈ (dedupeAndClusterJob comps now db).2.rawItems,
          r.id = it.id → r.processed = true) ∧
      ((dedupeAndClusterJob comps now db).2.clusters.length
          = db.clusters.length + (dedupeAndClusterJob comps now db).1.1 ∧
        (dedupeAndClusterJob comps now db).2.links.length
          = db.links.length + (dedupeAndClusterJob comps now db).1.2) ∧
      (db.links.Nodup → (dedupeAndClusterJob comps now db).2.links.Nodup) := by
  intro comps now now2 db hlen
  have htake : (db.rawItems.filter itemEligible).take 100
      = db.rawItems.filter itemEligible := List.take_of_length_le hlen
  have hmarked : ∀ it ∈ (db.rawItems.filter itemEligible).take 100,
      MarkedIn it.id (dedupeAndClusterJob comps now db).2.rawItems := by
    intro it hit
    obtain ⟨g, hg, hgm⟩ := groupItems_covers comps
      ((db.rawItems.filter itemEligible).take 100) [] it (Or.inl hit)
    exact foldl_processGroup_marks now _ (db, 0, 0) g hg it hgm
  have hproc : ∀ it ∈ (db.rawItems.filter itemEligible).take 100,
      ∀ r ∈ (dedupeAndClusterJob comps now db).2.rawItems,
        r.id = it.id → r.processed = true := fun it hit => hmarked it hit
  have hall : ∀ r2 ∈ (dedupeAndClusterJob comps now db).2.rawItems,
      itemEligible r2 = false := by
    intro r2 h2
    obtain ⟨r0, h0, hev⟩ := foldl_processGroup_evolves now
      (groupItems comps ((db.rawItems.filter itemEligible).take 100))
      (db, 0, 0) r2 h2
    by_cases he : itemEligible r0 = true
    · have h0f : r0 ∈ (db.rawItems.filter itemEligible).take 100 := by
        rw [htake]
        exact List.mem_filter.mpr ⟨h0, he⟩
      have hp : r2.processed = true := hmarked r0 h0f r2 h2 (itemEvolves_id_eq hev)
      simp [itemEligible, hp]
    · rcases hev with rfl | rfl
      · exact Bool.not_eq_true _ |>.mp he
      · simp [itemEligible]
  have hfil2 : (dedupeAndClusterJob comps now db).2.rawItems.filter itemEligible
      = [] := List.filter_eq_nil_iff.mpr (fun a ha => by simp [hall a ha])
  have hsecond : dedupeAndClusterJob comps now2 (dedupeAndClusterJob comps now db).2
      = ((0, 0), (dedupeAndClusterJob comps now db).2) := by
    set s1 := (dedupeAndClusterJob comps now db).2 with hs1
    show dedupeAndClusterJob comps now2 s1 = ((0, 0), s1)
    unfold dedupeAndClusterJob
    rw [hfil2]
    rfl
  have hjob : dedupeAndClusterJob comps now db
      = (((List.foldl (processGroup now) (db, 0, 0)
            (groupItems comps ((db.rawItems.filter itemEligible).take 100))).2.1,
          (List.foldl (processGroup now) (db, 0, 0)
            (groupItems comps ((db.rawItems.filter itemEligible).take 100))).2.2),
         (List.foldl (processGroup now) (db, 0, 0)
            (groupItems comps ((db.rawItems.filter itemEligible).take 100))).1) := rfl
  refine ⟨⟨by rw [hsecond], by rw [hsecond]⟩, hproc, ⟨?_, ?_⟩, ?_⟩
  · have h := foldl_processGroup_clusters_count now
      (groupItems comps ((db.rawItems.filter itemEligible).take 100)) (db, 0, 0)
    rw [hjob]
    simp only [Prod.fst, Prod.snd] at h ⊢
    omega
  · have h := foldl_processGroup_links_count now
      (groupItems comps ((db.rawItems.filter itemEligible).take 100)) (db, 0, 0)
    rw [hjob]
    simp only [Prod.fst, Prod.snd] at h ⊢
    omega
  · intro hnd
    exact foldl_processGroup_links_nodup now
      (groupItems comps ((db.rawItems.filter itemEligible).take 100)) (db, 0, 0) hnd

/-- Witness for C5: a two-item store (one item per competitor group,
plus one ineligible record) run through the job, then run again. -/
theorem dedupeAndClusterJob_idempotent_witness :
    ((⟨[⟨1, some "ServiceTitan launches X", some "body", false⟩,
        ⟨2, some "Jobber news", some "text", false⟩,
        ⟨3, none, none, false⟩], [], [], 10⟩ : ClusterDB).rawItems.filter
        itemEligible).length ≤ 100 ∧
    (dedupeAndClusterJob [⟨"ServiceTitan", ["servicetitan"]⟩, ⟨"Jobber", []⟩]
        1760140800001
        (dedupeAndClusterJob [⟨"ServiceTitan", ["servicetitan"]⟩, ⟨"Jobber", []⟩]
          1760140800000
          ⟨[⟨1, some "ServiceTitan launches X", some "body", false⟩,
            ⟨2, some "Jobber news", some "text", false⟩,
            ⟨3, none, none, false⟩], [], [], 10⟩).2).1 = (0, 0) :=
  ⟨by decide,
   ((dedupeAndClusterJob_idempotent [⟨"ServiceTitan", ["servicetitan"]⟩, ⟨"Jobber", []⟩]
      1760140800000 1760140800001
      ⟨[⟨1, some "ServiceTitan launches X", some "body", false⟩,
        ⟨2, some "Jobber news", some "text", false⟩,
        ⟨3, none, none, false⟩], [], [], 10⟩ (by decide)).1).1⟩

/-! ## C9: alert matching and notification idempotence -/

/-- One alert step only appends notifications. -/
theorem alertStep_mono (s : StorySummaryRec) (st : Nat × List NotificationRec)
    (a : UserAlert) : ∀ x ∈ st.2, x ∈ (alertStep s st a).2 := by
  intro x hx
  simp only [alertStep]
  split
  · split
    · exact hx
    · exact List.mem_append_left _ hx
  · exact hx

/-- The inner alert loop only appends notifications. -/
theorem foldl_alertStep_mono (s : StorySummaryRec) :
    ∀ (rules : List UserAlert) (st : Nat × List NotificationRec),
      ∀ x ∈ st.2, x ∈ (rules.foldl (alertStep s) st).2 := by
  intro rules
  induction rules with
  | nil => intro st x hx; exact hx
  | cons a rest ih =>
    intro st x hx
    rw [List.foldl_cons]
    exact ih _ x (alertStep_mono s st a x hx)

/-- The outer summary loop only appends notifications. -/
theorem foldl_outer_mono (active : List UserAlert) :
    ∀ (ss : List StorySummaryRec) (st : Nat × List NotificationRec),
      ∀ x ∈ st.2,
        x ∈ (ss.foldl (fun st s => active.foldl (alertStep s) st) st).2 := by
  intro ss
  induction ss with
  | nil => intro st x hx; exact hx
  | cons s rest ih =>
    intro st x hx
    rw [List.foldl_cons]
    exact ih _ x (foldl_alertStep_mono s active st x hx)

/-- Shape of one alert step: either nothing is added, or exactly the
notification of the matching rule and summary is appended. -/
theorem alertStep_shape (s : StorySummaryRec) (st : Nat × List NotificationRec)
    (a : UserAlert) :
    (alertStep s st a).2 = st.2 ∨
      ((alertStep s st a).2 = st.2 ++ [⟨a.userId, s.id⟩] ∧
        alertMatches a s = true) := by
  simp only [alertStep]
  split
  · next hm =>
      split
      · exact Or.inl rfl
      · exact Or.inr ⟨rfl, hm⟩
  · exact Or.inl rfl

/-- Invariant propagation through the inner alert loop: a pointwise
property of the notification table is preserved when it also holds of
every notification a matching rule would add. -/
theorem foldl_alertStep_super (s : StorySummaryRec) (P : NotificationRec → Prop) :
    ∀ (rules : List UserAlert) (st : Nat × List NotificationRec),
      (∀ x ∈ st.2, P x) →
      (∀ a ∈ rules, alertMatches a s = true → P ⟨a.userId, s.id⟩) →
      ∀ x ∈ (rules.foldl (alertStep s) st).2, P x := by
  intro rules
  induction rules with
  | nil => intro st h1 _ x hx; exact h1 x hx
  | cons a rest ih =>
    intro st h1 h2 x hx
    rw [List.foldl_cons] at hx
    refine ih _ ?_ (fun a2 ha2 => h2 a2 (List.mem_cons_of_mem _ ha2)) x hx
    intro y hy
    rcases alertStep_shape s st a with he | ⟨he, hm⟩
    · rw [he] at hy
      exact h1 y hy
    · rw [he] at hy
      rcases List.mem_append.mp hy with hy1 | hy2
      · exact h1 y hy1
      · rw [List.mem_singleton] at hy2
        subst hy2
        exact h2 a (List.mem_cons_self _ _) hm

/-- Invariant propagation through the whole alerts run. -/
theorem foldl_outer_super (active : List UserAlert) (P : NotificationRec → Prop) :
    ∀ (ss : List StorySummaryRec) (st : Nat × List NotificationRec),
      (∀ x ∈ st.2, P x) →
      (∀ s ∈ ss, ∀ a ∈ active, alertMatches a s = true → P ⟨a.userId, s.id⟩) →
      ∀ x ∈ (ss.foldl (fun st s => active.foldl (alertStep s) st) st).2, P x := by
  intro ss
  induction ss with
  | nil => intro st h1 _ x hx; exact h1 x hx
  | cons s rest ih =>
    intro st h1 h2 x hx
    rw [List.foldl_cons] at hx
    refine ih _ ?_ (fun s2 hs2 => h2 s2 (List.mem_cons_of_mem _ hs2)) x hx
    exact foldl_alertStep_super s P active st h1 (h2 s (List.mem_cons_self _ _))

/-- A matching rule always leaves its notification present after the
inner loop (created now, or already present before). -/
theorem foldl_alertStep_adds (s : StorySummaryRec) :
    ∀ (rules : List UserAlert) (st : Nat × List NotificationRec) (a0 : UserAlert),
      a0 ∈ rules → alertMatches a0 s = true →
      (⟨a0.userId, s.id⟩ : NotificationRec) ∈ (rules.foldl (alertStep s) st).2 := by
  intro rules
  induction rules with
  | nil => intro st a0 h; simp at h
  | cons a rest ih =>
    intro st a0 h hm
    rw [List.foldl_cons]
    rcases List.mem_cons.mp h with rfl | h2
    · refine foldl_alertStep_mono s rest _ _ ?_
      simp only [alertStep, hm, if_true]
      by_cases hex :
          (st.2.any (fun n => n.userId == a0.userId && n.storyId == s.id)) = true
      · rw [if_pos hex]
        obtain ⟨n, hn, hnb⟩ := List.any_eq_true.mp hex
        rw [Bool.and_eq_true, beq_iff_eq, beq_iff_eq] at hnb
        have hne : n = ⟨a0.userId, s.id⟩ := by
          cases n
          simp only [NotificationRec.mk.injEq]
          exact hnb
        exact hne ▸ hn
      · rw [if_neg hex]
        exact List.mem_append_right _ (List.mem_singleton.mpr rfl)
    · exact ih _ a0 h2 hm

/-- A matching (summary, rule) pair always leaves its notification
present after the whole alerts run. -/
theorem foldl_outer_adds (active : List UserAlert) :
    ∀ (ss : List StorySummaryRec) (st : Nat × List NotificationRec)
      (s0 : StorySummaryRec) (a0 : UserAlert),
      s0 ∈ ss → a0 ∈ active → alertMatches a0 s0 = true →
      (⟨a0.userId, s0.id⟩ : NotificationRec)
        ∈ (ss.foldl (fun st s => active.foldl (alertStep s) st) st).2 := by
  intro ss
  induction ss with
  | nil => intro st s0 a0 h; simp at h
  | cons s rest ih =>
    intro st s0 a0 hs ha hm
    rw [List.foldl_cons]
    rcases List.mem_cons.mp hs with rfl | hs2
    · exact foldl_outer_mono active rest _ _
        (foldl_alertStep_adds s0 active st a0 ha hm)
    · exact ih _ s0 a0 hs2 ha hm

/-- One alert step preserves freedom from duplicate notifications (the
existence check runs before every insert). -/
theorem alertStep_nodup (s : StorySummaryRec) (st : Nat × List NotificationRec)
    (a : UserAlert) (h : st.2.Nodup) : (alertStep s st a).2.Nodup := by
  simp only [alertStep]
  split
  · split
    · exact h
    · next hex =>
        rw [List.nodup_append]
        refine ⟨h, List.nodup_singleton _, ?_⟩
        intro p hp hp2
        rw [List.mem_singleton] at hp2
        subst hp2
        exact hex (List.any_eq_true.mpr ⟨⟨a.userId, s.id⟩, hp, by simp⟩)
  · exact h

/-- The inner alert loop preserves freedom from duplicates. -/
theorem foldl_alertStep_nodup (s : StorySummaryRec) :
    ∀ (rules : List UserAlert) (st : Nat × List NotificationRec),
      st.2.Nodup → (rules.foldl (alertStep s) st).2.Nodup := by
  intro rules
  induction rules with
  | nil => intro st h; exact h
  | cons a rest ih =>
    intro st h
    rw [List.foldl_cons]
    exact ih _ (alertStep_nodup s st a h)

/-- The whole alerts run preserves freedom from duplicates. -/
theorem foldl_outer_nodup (active : List UserAlert) :
    ∀ (ss : List StorySummaryRec) (st : Nat × List NotificationRec),
      st.2.Nodup →
      (ss.foldl (fun st s => active.foldl (alertStep s) st) st).2.Nodup := by
  intro ss
  induction ss with
  | nil => intro st h; exact h
  | cons s rest ih =>
    intro st h
    rw [List.foldl_cons]
    exact ih _ (foldl_alertStep_nodup s active st h)

/-- C9: an alert rule matches a summary exactly under the four
documented conditions (empty-or-member vertical filter, empty-or-member
competitor filter, P0 or P1-with-rule-minimum-below-P0, and
empty-or-intersecting capability filter); a notification for a
(rule user, summary) pair exists after the alerts run exactly when it
already existed or some matching recent summary and active rule produce
it; and the run never creates a duplicate (user, story) notification. -/
theorem alertsJob_spec :
    (∀ (a : UserAlert) (s : StorySummaryRec),
      alertMatches a s = true ↔
        ((a.verticals = [] ∨ ∃ v ∈ a.verticals, some v = s.verticalId) ∧
         (a.competitors = [] ∨ ∃ c ∈ a.competitors, some c = s.competitorId) ∧
         (s.priority = .P0 ∨ (s.priority = .P1 ∧ a.minPriority ≠ .P0)) ∧
         (a.aiCapabilities = [] ∨ ∃ c ∈ s.aiCapabilities, c ∈ a.aiCapabilities))) ∧
    (∀ (now : Int) (db : AlertDB) (u sid : Nat),
      (⟨u, sid⟩ : NotificationRec) ∈ (alertsJob now db).2.notifications ↔
        (⟨u, sid⟩ : NotificationRec) ∈ db.notifications ∨
        ∃ s ∈ db.summaries.filter (fun s =>
            (s.priority == Priority.P0 || s.priority == Priority.P1) &&
              decide (now - 21600000 ≤ s.createdAt)),
          s.id = sid ∧
          ∃ a ∈ db.alerts.filter (fun a => a.isActive),
            a.userId = u ∧ alertMatches a s = true) ∧
    (∀ (now : Int) (db : AlertDB), db.notifications.Nodup →
      (alertsJob now db).2.notifications.Nodup) := by
  refine ⟨?_, ?_, ?_⟩
  · intro a s
    unfold alertMatches
    simp [Bool.and_eq_true, Bool.or_eq_true, List.any_eq_true, beq_iff_eq,
      List.isEmpty_iff, Bool.not_eq_true', beq_eq_false_iff_ne, and_assoc]
  · intro now db u sid
    constructor
    · intro hmem
      have hsup := foldl_outer_super (db.alerts.filter (fun a => a.isActive))
        (fun x => x ∈ db.notifications ∨
          ∃ s ∈ db.summaries.filter (fun s =>
              (s.priority == Priority.P0 || s.priority == Priority.P1) &&
                decide (now - 21600000 ≤ s.createdAt)),
            s.id = x.storyId ∧
            ∃ a ∈ db.alerts.filter (fun a => a.isActive),
              a.userId = x.userId ∧ alertMatches a s = true)
        (db.summaries.filter (fun s =>
          (s.priority == Priority.P0 || s.priority == Priority.P1) &&
            decide (now - 21600000 ≤ s.createdAt)))
        (0, db.notifications)
        (fun x hx => Or.inl hx)
        (fun s hs a ha hm => Or.inr ⟨s, hs, rfl, a, ha, rfl, hm⟩)
      exact hsup ⟨u, sid⟩ hmem
    · intro h
      rcases h with h | ⟨s, hs, rfl, a, ha, rfl, hm⟩
      · exact foldl_outer_mono _ _ _ _ h
      · exact foldl_outer_adds _ _ _ s a hs ha hm
  · intro now db hnd
    exact foldl_outer_nodup _ _ _ hnd

/-- Witness for C9: the duplicate-freedom part applied at a concrete
store in which one matching rule fires once. -/
theorem alertsJob_spec_witness :
    ([] : List NotificationRec).Nodup ∧
    (alertsJob 1760140800000
      ⟨[⟨1, .P0, none, none, [], 1760140000000⟩],
       [⟨9, .P1, [], [], [], true⟩], []⟩).2.notifications.Nodup :=
  ⟨List.nodup_nil,
   alertsJob_spec.2.2 1760140800000
     ⟨[⟨1, .P0, none, none, [], 1760140000000⟩],
      [⟨9, .P1, [], [], [], true⟩], []⟩ List.nodup_nil⟩
